import Mathlib

/-!
Verification of the `usage_tracking` crate's core accounting model.

The Rust code keeps per-scope counters in a `FunctionUsageStats` value whose
map fields are `BTreeMap<String, u64>`.  We embed a `BTreeMap` as an
association list sorted strictly by key (`SortedKeys`), which is exactly the
iteration order the Rust code observes, and embed the `u64` counters as `Nat`
(none of the verified properties depend on wrap-around behaviour).
-/

namespace UsageTracking

/-- An entry list standing for a `BTreeMap<String, u64>`. -/
abbrev CounterMap := List (String × Nat)

/-- `BTreeMap::get`, scanning for the first entry with the given key. -/
def lookupOpt : CounterMap → String → Option Nat
  | [], _ => none
  | (k', v') :: rest, k => if k = k' then some v' else lookupOpt rest k

/-- `BTreeMap` invariant: keys strictly increasing in iteration order. -/
def SortedKeys (m : CounterMap) : Prop :=
  m.Pairwise (fun a b => a.1 < b.1)

/-- `WithHeapSize<BTreeMap>::mutate_entry_or_default(key, |c| *c += v)`:
inserts a default (zero) entry when absent, then adds `v`. -/
def insertAdd : CounterMap → String → Nat → CounterMap
  | [], k, v => [(k, v)]
  | (k', v') :: rest, k, v =>
    if k < k' then (k, v) :: (k', v') :: rest
    else if k = k' then (k', v' + v) :: rest
    else (k', v') :: insertAdd rest k v

/-- `BTreeMap::insert`: binds `k` to `v`, replacing any existing binding. -/
def insertPair : CounterMap → String → Nat → CounterMap
  | [], k, v => [(k, v)]
  | (k', v') :: rest, k, v =>
    if k < k' then (k, v) :: (k', v') :: rest
    else if k = k' then (k, v) :: rest
    else (k', v') :: insertPair rest k v

/-- `iterator.collect::<BTreeMap<_, _>>()`: insert each pair in order,
so a later pair with a duplicate key overwrites an earlier one. -/
def collectMap (l : List (String × Nat)) : CounterMap :=
  l.foldl (fun m p => insertPair m p.1 p.2) []

/-- The per-key fold of `FunctionUsageStats::merge`: for each entry of
`other`, `mutate_entry_or_default(key, |c| *c += v)` on `self`. -/
def mergeMaps (a b : CounterMap) : CounterMap :=
  b.foldl (fun m p => insertAdd m p.1 p.2) a

/-- Value bound to `k` by the last entry of `l` with key `k`, if any. -/
def lastVal (l : List (String × Nat)) (k : String) : Option Nat :=
  l.foldl (fun acc p => if p.1 = k then some p.2 else acc) none

/-- Pointwise combination realized by merging two counter maps: absent on
both sides stays absent, otherwise the values are added with absent ≡ 0. -/
def cmb : Option Nat → Option Nat → Option Nat
  | none, none => none
  | x, y => some (x.getD 0 + y.getD 0)

/-- `FunctionUsageStats` (src/crates/usage_tracking/src/lib.rs): user-facing
UDF stats.  `storage_calls` maps storage-API name to call count; the two
scalars count raw storage bytes; the four maps count per-table bytes. -/
structure FunctionUsageStats where
  storage_calls : CounterMap
  storage_ingress_size : Nat
  storage_egress_size : Nat
  database_ingress_size : CounterMap
  database_egress_size : CounterMap
  vector_ingress_size : CounterMap
  vector_egress_size : CounterMap
deriving DecidableEq, Repr

/-- `Default::default()` for `FunctionUsageStats`: zero scalars, empty maps. -/
def FunctionUsageStats.default : FunctionUsageStats :=
  { storage_calls := []
    storage_ingress_size := 0
    storage_egress_size := 0
    database_ingress_size := []
    database_egress_size := []
    vector_ingress_size := []
    vector_egress_size := [] }

/-- The `BTreeMap` invariant for every map field of a stats value. -/
def StatsWF (s : FunctionUsageStats) : Prop :=
  SortedKeys s.storage_calls ∧ SortedKeys s.database_ingress_size ∧
  SortedKeys s.database_egress_size ∧ SortedKeys s.vector_ingress_size ∧
  SortedKeys s.vector_egress_size

/-- `FunctionUsageStats::merge(&mut self, other)`: sums the scalars and folds
each map of `other` into the corresponding map of `self` entry by entry. -/
def FunctionUsageStats.merge (self other : FunctionUsageStats) : FunctionUsageStats :=
  { storage_calls := mergeMaps self.storage_calls other.storage_calls
    storage_ingress_size := self.storage_ingress_size + other.storage_ingress_size
    storage_egress_size := self.storage_egress_size + other.storage_egress_size
    database_ingress_size := mergeMaps self.database_ingress_size other.database_ingress_size
    database_egress_size := mergeMaps self.database_egress_size other.database_egress_size
    vector_ingress_size := mergeMaps self.vector_ingress_size other.vector_ingress_size
    vector_egress_size := mergeMaps self.vector_egress_size other.vector_egress_size }

/-- `FunctionUsageTracker::track_database_ingress_size`: no-op when
`skip_logging`, else adds `ingress_size` to the table's ingress counter. -/
def track_database_ingress_size (s : FunctionUsageStats) (tableName : String)
    (ingressSize : Nat) (skipLogging : Bool) : FunctionUsageStats :=
  if skipLogging then s
  else { s with database_ingress_size := insertAdd s.database_ingress_size tableName ingressSize }

/-- `FunctionUsageTracker::track_database_egress_size`. -/
def track_database_egress_size (s : FunctionUsageStats) (tableName : String)
    (egressSize : Nat) (skipLogging : Bool) : FunctionUsageStats :=
  if skipLogging then s
  else { s with database_egress_size := insertAdd s.database_egress_size tableName egressSize }

/-- `FunctionUsageTracker::track_vector_ingress_size`: no-op when
`skip_logging`, else adds the bytes to the table's database-ingress counter
and to its vector-ingress counter. -/
def track_vector_ingress_size (s : FunctionUsageStats) (tableName : String)
    (ingressSize : Nat) (skipLogging : Bool) : FunctionUsageStats :=
  if skipLogging then s
  else { s with
          database_ingress_size := insertAdd s.database_ingress_size tableName ingressSize
          vector_ingress_size := insertAdd s.vector_ingress_size tableName ingressSize }

/-- `FunctionUsageTracker::track_vector_egress_size`: adds the bytes to the
table's database-egress counter and to its vector-egress counter. -/
def track_vector_egress_size (s : FunctionUsageStats) (tableName : String)
    (egressSize : Nat) (skipLogging : Bool) : FunctionUsageStats :=
  if skipLogging then s
  else { s with
          database_egress_size := insertAdd s.database_egress_size tableName egressSize
          vector_egress_size := insertAdd s.vector_egress_size tableName egressSize }

/-- `StorageCallTracker::track_storage_ingress_size` for the tracker. -/
def track_storage_ingress_size (s : FunctionUsageStats) (ingressSize : Nat) :
    FunctionUsageStats :=
  { s with storage_ingress_size := s.storage_ingress_size + ingressSize }

/-- `StorageCallTracker::track_storage_egress_size` for the tracker. -/
def track_storage_egress_size (s : FunctionUsageStats) (egressSize : Nat) :
    FunctionUsageStats :=
  { s with storage_egress_size := s.storage_egress_size + egressSize }

/-- `StorageUsageTracker::track_storage_call` for the tracker: bumps the
named storage API's call count by one. -/
def track_storage_call (s : FunctionUsageStats) (storageApi : String) :
    FunctionUsageStats :=
  { s with storage_calls := insertAdd s.storage_calls storageApi 1 }

/-- `derive(Clone)` for `FunctionUsageStats`: a field-by-field copy. -/
def FunctionUsageStats.clone (s : FunctionUsageStats) : FunctionUsageStats :=
  { storage_calls := s.storage_calls
    storage_ingress_size := s.storage_ingress_size
    storage_egress_size := s.storage_egress_size
    database_ingress_size := s.database_ingress_size
    database_egress_size := s.database_egress_size
    vector_ingress_size := s.vector_ingress_size
    vector_egress_size := s.vector_egress_size }

/-- `FunctionUsageTracker::gather_user_stats`: locks the shared state and
returns a clone of it; the first component is the returned stats, the second
is the state still held behind the tracker's `Arc<Mutex<_>>` afterwards. -/
def gather_user_stats (s : FunctionUsageStats) : FunctionUsageStats × FunctionUsageStats :=
  (s.clone, s)

/-- `FunctionUsageTracker::add`: merges the given stats into the tracker. -/
def FunctionUsageTracker.add (s stats : FunctionUsageStats) : FunctionUsageStats :=
  s.merge stats

/-! ## Wire codec (`pb::usage` protos and the `From`/`TryFrom` impls) -/

/-- `CounterWithTagProto`: one repeated named-counter entry; on the wire both
sub-fields are optional. -/
structure CounterWithTagProto where
  name : Option String
  count : Option Nat
deriving DecidableEq, Repr

/-- `FunctionUsageStatsProto`: the wire message, with two optional scalars and
five repeated named-counter fields. -/
structure FunctionUsageStatsProto where
  storage_calls : List CounterWithTagProto
  storage_ingress_size : Option Nat
  storage_egress_size : Option Nat
  database_ingress_size : List CounterWithTagProto
  database_egress_size : List CounterWithTagProto
  vector_ingress_size : List CounterWithTagProto
  vector_egress_size : List CounterWithTagProto
deriving DecidableEq, Repr

/-- `to_by_tag_count`: each map entry becomes a proto entry with both
sub-fields set. -/
def to_by_tag_count (counts : List (String × Nat)) : List CounterWithTagProto :=
  counts.map fun p => { name := some p.1, count := some p.2 }

/-- `from_by_tag_count`: parses entries in order; the first entry with a
missing `name` or `count` sub-field aborts with the corresponding error
(Rust's `try_collect` on the mapped iterator). -/
def from_by_tag_count : List CounterWithTagProto → Except String (List (String × Nat))
  | [] => Except.ok []
  | c :: rest =>
    match c.name with
    | none => Except.error "Missing `tag` field"
    | some n =>
      match c.count with
      | none => Except.error "Missing `count` field"
      | some cnt =>
        match from_by_tag_count rest with
        | Except.error e => Except.error e
        | Except.ok tail => Except.ok ((n, cnt) :: tail)

/-- `impl From<FunctionUsageStats> for FunctionUsageStatsProto` (encode). -/
def toProto (stats : FunctionUsageStats) : FunctionUsageStatsProto :=
  { storage_calls := to_by_tag_count stats.storage_calls
    storage_ingress_size := some stats.storage_ingress_size
    storage_egress_size := some stats.storage_egress_size
    database_ingress_size := to_by_tag_count stats.database_ingress_size
    database_egress_size := to_by_tag_count stats.database_egress_size
    vector_ingress_size := to_by_tag_count stats.vector_ingress_size
    vector_egress_size := to_by_tag_count stats.vector_egress_size }

/-- `impl TryFrom<FunctionUsageStatsProto> for FunctionUsageStats` (decode),
checking fields in source order: `storage_calls` entries first, then the two
required scalars, then the four per-table maps; the first failure aborts. -/
def tryFromProto (stats : FunctionUsageStatsProto) : Except String FunctionUsageStats :=
  match from_by_tag_count stats.storage_calls with
  | Except.error e => Except.error e
  | Except.ok storage_calls =>
    match stats.storage_ingress_size with
    | none => Except.error "Missing `storage_ingress_size` field"
    | some storage_ingress_size =>
      match stats.storage_egress_size with
      | none => Except.error "Missing `storage_egress_size` field"
      | some storage_egress_size =>
        match from_by_tag_count stats.database_ingress_size with
        | Except.error e => Except.error e
        | Except.ok database_ingress_size =>
          match from_by_tag_count stats.database_egress_size with
          | Except.error e => Except.error e
          | Except.ok database_egress_size =>
            match from_by_tag_count stats.vector_ingress_size with
            | Except.error e => Except.error e
            | Except.ok vector_ingress_size =>
              match from_by_tag_count stats.vector_egress_size with
              | Except.error e => Except.error e
              | Except.ok vector_egress_size =>
                Except.ok
                  { storage_calls := collectMap storage_calls
                    storage_ingress_size
                    storage_egress_size
                    database_ingress_size := collectMap database_ingress_size
                    database_egress_size := collectMap database_egress_size
                    vector_ingress_size := collectMap vector_ingress_size
                    vector_egress_size := collectMap vector_egress_size }

/-- A proto entry with both sub-fields present. -/
def entryComplete (c : CounterWithTagProto) : Prop :=
  c.name.isSome = true ∧ c.count.isSome = true

instance (c : CounterWithTagProto) : Decidable (entryComplete c) := by
  unfold entryComplete; infer_instance

/-- A wire message on which decoding is specified to succeed: both required
scalars present, and every named-counter entry in each repeated field has
both its sub-fields. -/
def protoWellFormed (p : FunctionUsageStatsProto) : Prop :=
  p.storage_ingress_size.isSome = true ∧ p.storage_egress_size.isSome = true ∧
  (∀ c ∈ p.storage_calls, entryComplete c) ∧
  (∀ c ∈ p.database_ingress_size, entryComplete c) ∧
  (∀ c ∈ p.database_egress_size, entryComplete c) ∧
  (∀ c ∈ p.vector_ingress_size, entryComplete c) ∧
  (∀ c ∈ p.vector_egress_size, entryComplete c)

instance (p : FunctionUsageStatsProto) : Decidable (protoWellFormed p) := by
  unfold protoWellFormed; infer_instance

/-- The error message produced by `tryFromProto` names a field that is in
fact absent from the message. -/
def errorNamesAbsentField (p : FunctionUsageStatsProto) (m : String) : Prop :=
  (m = "Missing `storage_ingress_size` field" ∧ p.storage_ingress_size = none) ∨
  (m = "Missing `storage_egress_size` field" ∧ p.storage_egress_size = none) ∨
  (m = "Missing `tag` field" ∧
    ∃ c, (c ∈ p.storage_calls ∨ c ∈ p.database_ingress_size ∨ c ∈ p.database_egress_size ∨
          c ∈ p.vector_ingress_size ∨ c ∈ p.vector_egress_size) ∧ c.name = none) ∨
  (m = "Missing `count` field" ∧
    ∃ c, (c ∈ p.storage_calls ∨ c ∈ p.database_ingress_size ∨ c ∈ p.database_egress_size ∨
          c ∈ p.vector_ingress_size ∨ c ∈ p.vector_egress_size) ∧ c.count = none)

/-! ## Call metadata and event fan-out (`UsageCounter::track_call`) -/

/-- `common::types::ModuleEnvironment` (external crate), as far as this crate
observes it: `Action` carries one, everything else runs on the isolate. -/
inductive ModuleEnvironment where
  | isolate
  | node
deriving DecidableEq, Repr

/-- `ModuleEnvironment`'s `Display` as used by `CallType::environment`. -/
def ModuleEnvironment.toStr : ModuleEnvironment → String
  | .isolate => "isolate"
  | .node => "node"

/-- `std::time::Duration`: seconds (`u64`) and subsecond nanoseconds
(`u32`, below 10^9). -/
structure Duration where
  secs : Nat
  nanos : Nat
deriving DecidableEq, Repr

/-- Largest value representable in a `u64`. -/
def u64Max : Nat := 2 ^ 64 - 1

/-- `Duration::as_millis` (a `u128` in Rust, never overflowing there). -/
def Duration.asMillis (d : Duration) : Nat :=
  d.secs * 1000 + d.nanos / 1000000

/-- `common::types::UdfIdentifier` (external crate) as this crate matches on
it: a function path that knows whether it is a system path, an HTTP route, or
a CLI command; `path` stands for the displayed identifier. -/
inductive UdfIdentifier where
  | function (path : String) (isSystem : Bool)
  | http (path : String)
  | cli (path : String)
deriving DecidableEq, Repr

/-- `UdfIdentifier`'s `Display`. -/
def UdfIdentifier.toStr : UdfIdentifier → String
  | .function p _ => p
  | .http p => p
  | .cli p => p

/-- The `udf_id_type` string chosen by `UsageCounter::track_call`. -/
def udfIdType : UdfIdentifier → String
  | .function _ _ => "function"
  | .http _ => "http"
  | .cli _ => "cli"

/-- The `should_track_calls` flag of `UsageCounter::track_call`:
`Function(path) => !path.is_system()`, `Http(_) => true`, `Cli(_) => false`. -/
def shouldTrackCalls : UdfIdentifier → Bool
  | .function _ isSystem => !isSystem
  | .http _ => true
  | .cli _ => false

/-- `CallType` (src/crates/usage_tracking/src/lib.rs). -/
inductive CallType where
  | action (env : ModuleEnvironment) (duration : Duration) (memoryInMb : Nat)
  | httpAction (duration : Duration) (memoryInMb : Nat)
  | exportKind
  | cachedQuery
  | uncachedQuery
  | mutation
  | importKind
deriving DecidableEq, Repr

/-- `CallType::tag`. -/
def CallType.tag : CallType → String
  | .action _ _ _ => "action"
  | .exportKind => "export"
  | .cachedQuery => "cached_query"
  | .uncachedQuery => "uncached_query"
  | .mutation => "mutation"
  | .httpAction _ _ => "http_action"
  | .importKind => "import"

/-- `CallType::memory_megabytes`. -/
def CallType.memoryMegabytes : CallType → Nat
  | .action _ _ m => m
  | .httpAction _ m => m
  | _ => 0

/-- `CallType::duration_millis`: `u64::try_from(duration.as_millis())` with an
`expect` — the conversion panics (here: `none`) when the millisecond count
does not fit in a `u64`. -/
def CallType.durationMillis : CallType → Option Nat
  | .action _ d _ => if d.asMillis ≤ u64Max then some d.asMillis else none
  | .httpAction d _ => if d.asMillis ≤ u64Max then some d.asMillis else none
  | _ => some 0

/-- `CallType::environment`. -/
def CallType.environment : CallType → String
  | .action env _ _ => env.toStr
  | _ => ModuleEnvironment.isolate.toStr

/-- `events::usage::UsageEvent` — the event kinds this crate emits from
`track_call` / `_track_function_usage`. -/
inductive UsageEvent where
  | functionCall (id udfId udfIdTypeStr tag : String)
      (memoryMegabytes durationMillis : Nat) (environment : String) (isTracked : Bool)
  | functionStorageCalls (id udfId call : String) (count : Nat)
  | functionStorageBandwidth (id udfId : String) (ingress egress : Nat)
  | databaseBandwidth (id udfId tableName : String) (ingress egress : Nat)
  | vectorBandwidth (id udfId tableName : String) (ingress egress : Nat)
deriving DecidableEq, Repr

/-- `UsageCounter::_track_function_usage`: the bandwidth-event expansion of a
stats value, in source order — storage-call counts, the single storage
bandwidth event, database ingress entries, database egress entries, vector
ingress entries, vector egress entries. -/
def trackFunctionUsageEvents (execId udfId : String) (stats : FunctionUsageStats) :
    List UsageEvent :=
  (stats.storage_calls.map fun p => UsageEvent.functionStorageCalls execId udfId p.1 p.2)
  ++ [UsageEvent.functionStorageBandwidth execId udfId
        stats.storage_ingress_size stats.storage_egress_size]
  ++ (stats.database_ingress_size.map fun p =>
        UsageEvent.databaseBandwidth execId udfId p.1 p.2 0)
  ++ (stats.database_egress_size.map fun p =>
        UsageEvent.databaseBandwidth execId udfId p.1 0 p.2)
  ++ (stats.vector_ingress_size.map fun p =>
        UsageEvent.vectorBandwidth execId udfId p.1 p.2 0)
  ++ (stats.vector_egress_size.map fun p =>
        UsageEvent.vectorBandwidth execId udfId p.1 0 p.2)

/-- `UsageCounter::track_call`: one `FunctionCall` summary event followed by
the bandwidth expansion; `none` models the panic in
`CallType::duration_millis` when the duration overflows a `u64`. -/
def track_call (udfPath : UdfIdentifier) (execId : String) (callType : CallType)
    (stats : FunctionUsageStats) : Option (List UsageEvent) :=
  match callType.durationMillis with
  | none => none
  | some d =>
    some (UsageEvent.functionCall execId udfPath.toStr (udfIdType udfPath) callType.tag
            callType.memoryMegabytes d callType.environment (shouldTrackCalls udfPath)
          :: trackFunctionUsageEvents execId udfPath.toStr stats)

/-- `UsageCounter::track_function_usage` (the legacy non-summarizing entry
point): only the bandwidth expansion. -/
def track_function_usage (udfPath : UdfIdentifier) (execId : String)
    (stats : FunctionUsageStats) : List UsageEvent :=
  trackFunctionUsageEvents execId udfPath.toStr stats

/-- Recognizes the `FunctionCall` summary event. -/
def isFunctionCallEvent : UsageEvent → Bool
  | .functionCall _ _ _ _ _ _ _ _ => true
  | _ => false

/-- Recognizes a `FunctionStorageCalls` event. -/
def isStorageCallsEvent : UsageEvent → Bool
  | .functionStorageCalls _ _ _ _ => true
  | _ => false

/-- Recognizes the `FunctionStorageBandwidth` event. -/
def isStorageBandwidthEvent : UsageEvent → Bool
  | .functionStorageBandwidth _ _ _ _ => true
  | _ => false

/-- Recognizes a `DatabaseBandwidth` event for the given table. -/
def isDatabaseBandwidthFor (t : String) : UsageEvent → Bool
  | .databaseBandwidth _ _ tableName _ _ => tableName == t
  | _ => false

/-- Recognizes a `VectorBandwidth` event for the given table. -/
def isVectorBandwidthFor (t : String) : UsageEvent → Bool
  | .vectorBandwidth _ _ tableName _ _ => tableName == t
  | _ => false

/-- The spec's classification "system-originated function-identified call". -/
def isSystemFunctionId : UdfIdentifier → Bool
  | .function _ isSystem => isSystem
  | _ => false

/-- Recognizes a CLI-identified call. -/
def isCliId : UdfIdentifier → Bool
  | .cli _ => true
  | _ => false

/-! ## Lemmas about the counter-map primitives -/

theorem lookupOpt_eq_none_of_forall_ne {m : CounterMap} {k : String}
    (h : ∀ p ∈ m, p.1 ≠ k) : lookupOpt m k = none := by
  induction m with
  | nil => rfl
  | cons p rest ih =>
    obtain ⟨k', v'⟩ := p
    have hk : k ≠ k' := fun hkk => (h (k', v') (by simp)) (hkk.symm)
    simp only [lookupOpt, if_neg hk]
    exact ih fun q hq => h q (List.mem_cons_of_mem _ hq)

theorem exists_mem_of_lookupOpt_eq_some {m : CounterMap} {k : String} {v : Nat}
    (h : lookupOpt m k = some v) : ∃ p ∈ m, p.1 = k := by
  induction m with
  | nil => simp [lookupOpt] at h
  | cons p rest ih =>
    obtain ⟨k', v'⟩ := p
    by_cases hk : k = k'
    · exact ⟨(k', v'), by simp, hk.symm⟩
    · simp only [lookupOpt, if_neg hk] at h
      obtain ⟨q, hq, hq1⟩ := ih h
      exact ⟨q, List.mem_cons_of_mem _ hq, hq1⟩

theorem insertAdd_cons_lt {k₀ : String} {v₀ : Nat} {rest : CounterMap} {k : String} {v : Nat}
    (h : k < k₀) : insertAdd ((k₀, v₀) :: rest) k v = (k, v) :: (k₀, v₀) :: rest := by
  simp [insertAdd, h]

theorem insertAdd_cons_eq {k₀ : String} {v₀ : Nat} {rest : CounterMap} {v : Nat} :
    insertAdd ((k₀, v₀) :: rest) k₀ v = (k₀, v₀ + v) :: rest := by
  simp [insertAdd]

theorem insertAdd_cons_gt {k₀ : String} {v₀ : Nat} {rest : CounterMap} {k : String} {v : Nat}
    (h : k₀ < k) : insertAdd ((k₀, v₀) :: rest) k v = (k₀, v₀) :: insertAdd rest k v := by
  have h1 : ¬k < k₀ := not_lt.mpr h.le
  have h2 : ¬k = k₀ := ne_of_gt h
  simp [insertAdd, h1, h2]

theorem insertPair_cons_lt {k₀ : String} {v₀ : Nat} {rest : CounterMap} {k : String} {v : Nat}
    (h : k < k₀) : insertPair ((k₀, v₀) :: rest) k v = (k, v) :: (k₀, v₀) :: rest := by
  simp [insertPair, h]

theorem insertPair_cons_eq {k₀ : String} {v₀ : Nat} {rest : CounterMap} {v : Nat} :
    insertPair ((k₀, v₀) :: rest) k₀ v = (k₀, v) :: rest := by
  simp [insertPair]

theorem insertPair_cons_gt {k₀ : String} {v₀ : Nat} {rest : CounterMap} {k : String} {v : Nat}
    (h : k₀ < k) : insertPair ((k₀, v₀) :: rest) k v = (k₀, v₀) :: insertPair rest k v := by
  have h1 : ¬k < k₀ := not_lt.mpr h.le
  have h2 : ¬k = k₀ := ne_of_gt h
  simp [insertPair, h1, h2]

theorem mem_keys_insertAdd {m : CounterMap} {k : String} {v : Nat} {q : String × Nat}
    (h : q ∈ insertAdd m k v) : q.1 = k ∨ q.1 ∈ m.map Prod.fst := by
  induction m with
  | nil =>
    simp only [insertAdd, List.mem_singleton] at h
    left; rw [h]
  | cons p rest ih =>
    obtain ⟨k₀, v₀⟩ := p
    rcases lt_trichotomy k k₀ with h1 | h1 | h1
    · rw [insertAdd_cons_lt h1] at h
      rcases List.mem_cons.mp h with h' | h'
      · left; rw [h']
      · right; exact List.mem_map_of_mem _ h'
    · subst h1
      rw [insertAdd_cons_eq] at h
      rcases List.mem_cons.mp h with h' | h'
      · left; rw [h']
      · right
        simp only [List.map_cons, List.mem_cons]
        right; exact List.mem_map_of_mem _ h'
    · rw [insertAdd_cons_gt h1] at h
      rcases List.mem_cons.mp h with h' | h'
      · right; rw [h']; simp
      · rcases ih h' with h'' | h''
        · left; exact h''
        · right
          simp only [List.map_cons, List.mem_cons]
          right; exact h''

theorem mem_keys_insertPair {m : CounterMap} {k : String} {v : Nat} {q : String × Nat}
    (h : q ∈ insertPair m k v) : q.1 = k ∨ q.1 ∈ m.map Prod.fst := by
  induction m with
  | nil =>
    simp only [insertPair, List.mem_singleton] at h
    left; rw [h]
  | cons p rest ih =>
    obtain ⟨k₀, v₀⟩ := p
    rcases lt_trichotomy k k₀ with h1 | h1 | h1
    · rw [insertPair_cons_lt h1] at h
      rcases List.mem_cons.mp h with h' | h'
      · left; rw [h']
      · right; exact List.mem_map_of_mem _ h'
    · subst h1
      rw [insertPair_cons_eq] at h
      rcases List.mem_cons.mp h with h' | h'
      · left; rw [h']
      · right
        simp only [List.map_cons, List.mem_cons]
        right; exact List.mem_map_of_mem _ h'
    · rw [insertPair_cons_gt h1] at h
      rcases List.mem_cons.mp h with h' | h'
      · right; rw [h']; simp
      · rcases ih h' with h'' | h''
        · left; exact h''
        · right
          simp only [List.map_cons, List.mem_cons]
          right; exact h''

theorem sortedKeys_insertAdd {m : CounterMap} (hm : SortedKeys m) (k : String) (v : Nat) :
    SortedKeys (insertAdd m k v) := by
  induction m with
  | nil => simp [insertAdd, SortedKeys]
  | cons p rest ih =>
    obtain ⟨k₀, v₀⟩ := p
    rw [SortedKeys, List.pairwise_cons] at hm
    obtain ⟨hlt, hrest⟩ := hm
    rcases lt_trichotomy k k₀ with h1 | h1 | h1
    · rw [SortedKeys, insertAdd_cons_lt h1]
      refine List.Pairwise.cons ?_ (List.Pairwise.cons hlt hrest)
      intro q hq
      rcases List.mem_cons.mp hq with h' | h'
      · rw [h']; exact h1
      · exact lt_trans h1 (hlt q h')
    · subst h1
      rw [SortedKeys, insertAdd_cons_eq]
      exact List.Pairwise.cons hlt hrest
    · rw [SortedKeys, insertAdd_cons_gt h1]
      refine List.Pairwise.cons ?_ (ih hrest)
      intro q hq
      rcases mem_keys_insertAdd hq with h' | h'
      · rw [h']; exact h1
      · obtain ⟨r, hr, hr1⟩ := List.mem_map.mp h'
        rw [← hr1]; exact hlt r hr

theorem sortedKeys_insertPair {m : CounterMap} (hm : SortedKeys m) (k : String) (v : Nat) :
    SortedKeys (insertPair m k v) := by
  induction m with
  | nil => simp [insertPair, SortedKeys]
  | cons p rest ih =>
    obtain ⟨k₀, v₀⟩ := p
    rw [SortedKeys, List.pairwise_cons] at hm
    obtain ⟨hlt, hrest⟩ := hm
    rcases lt_trichotomy k k₀ with h1 | h1 | h1
    · rw [SortedKeys, insertPair_cons_lt h1]
      refine List.Pairwise.cons ?_ (List.Pairwise.cons hlt hrest)
      intro q hq
      rcases List.mem_cons.mp hq with h' | h'
      · rw [h']; exact h1
      · exact lt_trans h1 (hlt q h')
    · subst h1
      rw [SortedKeys, insertPair_cons_eq]
      exact List.Pairwise.cons hlt hrest
    · rw [SortedKeys, insertPair_cons_gt h1]
      refine List.Pairwise.cons ?_ (ih hrest)
      intro q hq
      rcases mem_keys_insertPair hq with h' | h'
      · rw [h']; exact h1
      · obtain ⟨r, hr, hr1⟩ := List.mem_map.mp h'
        rw [← hr1]; exact hlt r hr

theorem lookupOpt_insertAdd {m : CounterMap} (hm : SortedKeys m) (k : String) (v : Nat)
    (k' : String) :
    lookupOpt (insertAdd m k v) k' =
      if k' = k then some ((lookupOpt m k).getD 0 + v) else lookupOpt m k' := by
  induction m with
  | nil =>
    by_cases hk : k' = k <;> simp [insertAdd, lookupOpt, hk]
  | cons p rest ih =>
    obtain ⟨k₀, v₀⟩ := p
    rw [SortedKeys, List.pairwise_cons] at hm
    obtain ⟨hlt, hrest⟩ := hm
    rcases lt_trichotomy k k₀ with h1 | h1 | h1
    · have habs : lookupOpt ((k₀, v₀) :: rest) k = none := by
        refine lookupOpt_eq_none_of_forall_ne ?_
        intro q hq
        rcases List.mem_cons.mp hq with h' | h'
        · rw [h']; exact ne_of_gt h1
        · exact ne_of_gt (lt_trans h1 (hlt q h'))
      rw [insertAdd_cons_lt h1]
      by_cases hk : k' = k
      · rw [if_pos hk, habs]
        simp [lookupOpt, hk]
      · simp [lookupOpt, hk]
    · subst h1
      rw [insertAdd_cons_eq]
      by_cases hk : k' = k
      · simp [lookupOpt, hk]
      · simp [lookupOpt, hk]
    · rw [insertAdd_cons_gt h1]
      have hne : ¬k = k₀ := ne_of_gt h1
      have hne' : ¬k₀ = k := ne_of_lt h1
      by_cases hk0 : k' = k₀
      · have hk : ¬k' = k := by rw [hk0]; exact ne_of_lt h1
        simp [lookupOpt, hk0, hk, hne']
      · simp [lookupOpt, hk0, ih hrest, hne]

theorem lookupOpt_insertPair {m : CounterMap} (hm : SortedKeys m) (k : String) (v : Nat)
    (k' : String) :
    lookupOpt (insertPair m k v) k' =
      if k' = k then some v else lookupOpt m k' := by
  induction m with
  | nil =>
    by_cases hk : k' = k <;> simp [insertPair, lookupOpt, hk]
  | cons p rest ih =>
    obtain ⟨k₀, v₀⟩ := p
    rw [SortedKeys, List.pairwise_cons] at hm
    obtain ⟨hlt, hrest⟩ := hm
    rcases lt_trichotomy k k₀ with h1 | h1 | h1
    · rw [insertPair_cons_lt h1]
      by_cases hk : k' = k
      · simp [lookupOpt, hk]
      · simp [lookupOpt, hk]
    · subst h1
      rw [insertPair_cons_eq]
      by_cases hk : k' = k
      · simp [lookupOpt, hk]
      · simp [lookupOpt, hk]
    · rw [insertPair_cons_gt h1]
      have hne' : ¬k₀ = k := ne_of_lt h1
      by_cases hk0 : k' = k₀
      · have hk : ¬k' = k := by rw [hk0]; exact ne_of_lt h1
        simp [lookupOpt, hk0, hk, hne']
      · simp [lookupOpt, hk0, ih hrest]

theorem foldl_lastVal_or (k : String) (l : List (String × Nat)) (acc : Option Nat) :
    l.foldl (fun a p => if p.1 = k then some p.2 else a) acc = (lastVal l k).or acc := by
  induction l generalizing acc with
  | nil => rfl
  | cons p l ih =>
    rw [List.foldl_cons, ih]
    have hl : lastVal (p :: l) k = (lastVal l k).or (if p.1 = k then some p.2 else none) := by
      simp only [lastVal, List.foldl_cons]
      exact ih _
    rw [hl]
    rcases hv : lastVal l k with _ | w <;> by_cases hp : p.1 = k <;> simp [hv, hp, Option.or]

theorem lastVal_cons (k : String) (p : String × Nat) (l : List (String × Nat)) :
    lastVal (p :: l) k = (lastVal l k).or (if p.1 = k then some p.2 else none) := by
  simp only [lastVal, List.foldl_cons]
  exact foldl_lastVal_or k l _

theorem sortedKeys_nil : SortedKeys [] := by
  simp [SortedKeys]

theorem sortedKeys_foldl_insertPair (l : List (String × Nat)) :
    ∀ m : CounterMap, SortedKeys m →
      SortedKeys (l.foldl (fun m p => insertPair m p.1 p.2) m) := by
  induction l with
  | nil => intro m hm; exact hm
  | cons p l ih =>
    intro m hm
    simp only [List.foldl_cons]
    exact ih _ (sortedKeys_insertPair hm _ _)

theorem sortedKeys_collectMap (l : List (String × Nat)) : SortedKeys (collectMap l) :=
  sortedKeys_foldl_insertPair l [] sortedKeys_nil

theorem sortedKeys_mergeMaps (b : CounterMap) :
    ∀ a : CounterMap, SortedKeys a → SortedKeys (mergeMaps a b) := by
  induction b with
  | nil => intro a ha; exact ha
  | cons p b ih =>
    intro a ha
    simp only [mergeMaps, List.foldl_cons] at *
    exact ih _ (sortedKeys_insertAdd ha _ _)

theorem lookupOpt_foldl_insertPair (k : String) (l : List (String × Nat)) :
    ∀ m : CounterMap, SortedKeys m →
      lookupOpt (l.foldl (fun m p => insertPair m p.1 p.2) m) k =
        (lastVal l k).or (lookupOpt m k) := by
  induction l with
  | nil => intro m hm; simp [lastVal]
  | cons p l ih =>
    intro m hm
    simp only [List.foldl_cons]
    rw [ih _ (sortedKeys_insertPair hm p.1 p.2), lookupOpt_insertPair hm p.1 p.2 k,
      lastVal_cons]
    rcases hv : lastVal l k with _ | w <;> by_cases hp : p.1 = k
    · simp [hv, hp, Option.or]
    · have hp' : ¬k = p.1 := fun h => hp h.symm
      simp [hv, hp, hp', Option.or]
    · simp [hv, hp, Option.or]
    · have hp' : ¬k = p.1 := fun h => hp h.symm
      simp [hv, hp, hp', Option.or]

theorem lookupOpt_collectMap (l : List (String × Nat)) (k : String) :
    lookupOpt (collectMap l) k = lastVal l k := by
  have h : lookupOpt (collectMap l) k = (lastVal l k).or (lookupOpt [] k) :=
    lookupOpt_foldl_insertPair k l [] sortedKeys_nil
  rw [h]
  rcases hv : lastVal l k with _ | w <;> simp [hv, lookupOpt, Option.or]

theorem mergeMaps_nil (a : CounterMap) : mergeMaps a [] = a := rfl

theorem lookupOpt_mergeMaps (k : String) :
    ∀ b : CounterMap, SortedKeys b → ∀ a : CounterMap, SortedKeys a →
      lookupOpt (mergeMaps a b) k = cmb (lookupOpt a k) (lookupOpt b k) := by
  intro b
  induction b with
  | nil =>
    intro _ a _
    rw [mergeMaps_nil]
    rcases h : lookupOpt a k with _ | v <;> simp [cmb, h, lookupOpt]
  | cons p b ih =>
    intro hb a ha
    obtain ⟨k₀, v₀⟩ := p
    rw [SortedKeys, List.pairwise_cons] at hb
    obtain ⟨hlt, hb'⟩ := hb
    have hstep : mergeMaps a ((k₀, v₀) :: b) = mergeMaps (insertAdd a k₀ v₀) b := by
      simp [mergeMaps]
    rw [hstep, ih hb' _ (sortedKeys_insertAdd ha k₀ v₀), lookupOpt_insertAdd ha k₀ v₀ k]
    by_cases hk : k = k₀
    · subst hk
      have hnone : lookupOpt b k = none :=
        lookupOpt_eq_none_of_forall_ne fun q hq => ne_of_gt (hlt q hq)
      rcases h : lookupOpt a k with _ | v <;> simp [cmb, h, hnone, lookupOpt]
    · rcases h : lookupOpt a k with _ | v <;> simp [cmb, h, hk, lookupOpt]

theorem sortedKeys_ext : ∀ a : CounterMap, SortedKeys a → ∀ b : CounterMap, SortedKeys b →
    (∀ k, lookupOpt a k = lookupOpt b k) → a = b := by
  intro a
  induction a with
  | nil =>
    intro _ b hb h
    cases b with
    | nil => rfl
    | cons q tb =>
      obtain ⟨kb, vb⟩ := q
      have hq := h kb
      simp [lookupOpt] at hq
  | cons p ta ih =>
    intro ha b hb h
    cases b with
    | nil =>
      obtain ⟨ka, va⟩ := p
      have hq := h ka
      simp [lookupOpt] at hq
    | cons q tb =>
      obtain ⟨ka, va⟩ := p
      obtain ⟨kb, vb⟩ := q
      rw [SortedKeys, List.pairwise_cons] at ha hb
      obtain ⟨halt, hta⟩ := ha
      obtain ⟨hblt, htb⟩ := hb
      have hkab : ka = kb := by
        by_contra hne
        have h1 : lookupOpt tb ka = some va := by
          have := h ka
          simpa [lookupOpt, hne] using this.symm
        have h2 : lookupOpt ta kb = some vb := by
          have hne' : ¬kb = ka := fun hh => hne hh.symm
          have := h kb
          simpa [lookupOpt, hne'] using this
        obtain ⟨p1, hp1, hp1k⟩ := exists_mem_of_lookupOpt_eq_some h1
        obtain ⟨p2, hp2, hp2k⟩ := exists_mem_of_lookupOpt_eq_some h2
        have hba : kb < ka := hp1k ▸ hblt p1 hp1
        have hab : ka < kb := hp2k ▸ halt p2 hp2
        exact absurd hab (not_lt.mpr hba.le)
      subst hkab
      have hval : va = vb := by
        have := h ka
        simpa [lookupOpt] using this
      have htail : ta = tb := by
        refine ih hta tb htb ?_
        intro k
        by_cases hk : k = ka
        · subst hk
          rw [lookupOpt_eq_none_of_forall_ne fun q hq => ne_of_gt (halt q hq),
            lookupOpt_eq_none_of_forall_ne fun q hq => ne_of_gt (hblt q hq)]
        · have := h k
          simpa [lookupOpt, hk] using this
      rw [hval, htail]

theorem lastVal_eq_lookupOpt {l : CounterMap} (hl : SortedKeys l) (k : String) :
    lastVal l k = lookupOpt l k := by
  induction l with
  | nil => simp [lastVal, lookupOpt]
  | cons p t ih =>
    obtain ⟨kp, vp⟩ := p
    rw [SortedKeys, List.pairwise_cons] at hl
    obtain ⟨hlt, ht⟩ := hl
    rw [lastVal_cons, ih ht]
    by_cases hk : kp = k
    · subst hk
      have hnone : lookupOpt t kp = none :=
        lookupOpt_eq_none_of_forall_ne fun q hq => ne_of_gt (hlt q hq)
      simp [lookupOpt, hnone, Option.or]
    · have hk' : ¬k = kp := fun h => hk h.symm
      rcases hval : lookupOpt t k with _ | w <;> simp [lookupOpt, hk, hk', hval, Option.or]

theorem collectMap_eq_self {l : CounterMap} (hl : SortedKeys l) : collectMap l = l := by
  refine sortedKeys_ext _ (sortedKeys_collectMap l) _ hl ?_
  intro k
  rw [lookupOpt_collectMap, lastVal_eq_lookupOpt hl]

theorem from_to_by_tag_count (l : List (String × Nat)) :
    from_by_tag_count (to_by_tag_count l) = Except.ok l := by
  induction l with
  | nil => rfl
  | cons p l ih =>
    simp only [to_by_tag_count, List.map_cons] at *
    simp [from_by_tag_count, ih]

theorem cmb_comm (x y : Option Nat) : cmb x y = cmb y x := by
  rcases x with _ | a <;> rcases y with _ | b <;> simp [cmb, Nat.add_comm]

theorem cmb_assoc (x y z : Option Nat) : cmb (cmb x y) z = cmb x (cmb y z) := by
  rcases x with _ | a <;> rcases y with _ | b <;> rcases z with _ | c <;>
    (simp [cmb]; try omega)

theorem mergeMaps_comm {a b : CounterMap} (ha : SortedKeys a) (hb : SortedKeys b) :
    mergeMaps a b = mergeMaps b a := by
  refine sortedKeys_ext _ (sortedKeys_mergeMaps b a ha) _ (sortedKeys_mergeMaps a b hb) ?_
  intro k
  rw [lookupOpt_mergeMaps k b hb a ha, lookupOpt_mergeMaps k a ha b hb, cmb_comm]

theorem mergeMaps_assoc {a b c : CounterMap} (ha : SortedKeys a) (hb : SortedKeys b)
    (hc : SortedKeys c) :
    mergeMaps (mergeMaps a b) c = mergeMaps a (mergeMaps b c) := by
  refine sortedKeys_ext _ (sortedKeys_mergeMaps c _ (sortedKeys_mergeMaps b a ha)) _
    (sortedKeys_mergeMaps (mergeMaps b c) a ha) ?_
  intro k
  rw [lookupOpt_mergeMaps k c hc _ (sortedKeys_mergeMaps b a ha),
    lookupOpt_mergeMaps k b hb a ha,
    lookupOpt_mergeMaps k (mergeMaps b c) (sortedKeys_mergeMaps c b hb) a ha,
    lookupOpt_mergeMaps k c hc b hb, cmb_assoc]

theorem from_by_tag_count_isOk {l : List CounterWithTagProto}
    (h : ∀ c ∈ l, entryComplete c) : ∃ r, from_by_tag_count l = Except.ok r := by
  induction l with
  | nil => exact ⟨[], rfl⟩
  | cons c rest ih =>
    obtain ⟨hn, hc⟩ := h c (List.mem_cons_self c rest)
    obtain ⟨n, hn'⟩ := Option.isSome_iff_exists.mp hn
    obtain ⟨cnt, hc'⟩ := Option.isSome_iff_exists.mp hc
    obtain ⟨r, hr⟩ := ih fun q hq => h q (List.mem_cons_of_mem _ hq)
    exact ⟨(n, cnt) :: r, by simp [from_by_tag_count, hn', hc', hr]⟩

theorem complete_of_from_by_tag_count_ok {l : List CounterWithTagProto}
    {r : List (String × Nat)} (h : from_by_tag_count l = Except.ok r) :
    ∀ c ∈ l, entryComplete c := by
  induction l generalizing r with
  | nil => intro c hc; simp at hc
  | cons c rest ih =>
    intro q hq
    rw [from_by_tag_count] at h
    rcases hn : c.name with _ | n
    · rw [hn] at h; exact absurd h (by simp)
    · rw [hn] at h
      rcases hc : c.count with _ | cnt
      · rw [hc] at h; exact absurd h (by simp)
      · rw [hc] at h
        rcases hrest : from_by_tag_count rest with e | tail
        · rw [hrest] at h; exact absurd h (by simp)
        · rcases List.mem_cons.mp hq with hq' | hq'
          · subst hq'; exact ⟨by simp [hn], by simp [hc]⟩
          · exact ih hrest q hq'

theorem from_by_tag_count_error {l : List CounterWithTagProto} {m : String}
    (h : from_by_tag_count l = Except.error m) :
    (m = "Missing `tag` field" ∧ ∃ c ∈ l, c.name = none) ∨
    (m = "Missing `count` field" ∧ ∃ c ∈ l, c.count = none) := by
  induction l with
  | nil => exact absurd h (by simp [from_by_tag_count])
  | cons c rest ih =>
    rw [from_by_tag_count] at h
    rcases hn : c.name with _ | n
    · rw [hn] at h
      left
      refine ⟨(Except.error.inj h).symm, c, List.mem_cons_self c rest, hn⟩
    · rw [hn] at h
      rcases hc : c.count with _ | cnt
      · rw [hc] at h
        right
        refine ⟨(Except.error.inj h).symm, c, List.mem_cons_self c rest, hc⟩
      · rw [hc] at h
        rcases hrest : from_by_tag_count rest with e | tail
        · rw [hrest] at h
          have hme : m = e := (Except.error.inj h).symm
          subst hme
          rcases ih hrest with ⟨hm, q, hq, hqn⟩ | ⟨hm, q, hq, hqc⟩
          · exact Or.inl ⟨hm, q, List.mem_cons_of_mem _ hq, hqn⟩
          · exact Or.inr ⟨hm, q, List.mem_cons_of_mem _ hq, hqc⟩
        · rw [hrest] at h; exact absurd h (by simp)

theorem tfue_no_functionCall (e u : String) (s : FunctionUsageStats) :
    ∀ ev ∈ trackFunctionUsageEvents e u s, isFunctionCallEvent ev = false := by
  intro ev hev
  simp only [trackFunctionUsageEvents, List.mem_append, List.mem_map,
    List.mem_singleton] at hev
  rcases hev with ((((⟨p, _, rfl⟩ | rfl) | ⟨p, _, rfl⟩) | ⟨p, _, rfl⟩) | ⟨p, _, rfl⟩) |
    ⟨p, _, rfl⟩ <;> rfl

theorem tfue_countP_functionCall (e u : String) (s : FunctionUsageStats) :
    (trackFunctionUsageEvents e u s).countP isFunctionCallEvent = 0 := by
  rw [List.countP_eq_zero]
  intro ev hev
  simp [tfue_no_functionCall e u s ev hev]

theorem tfue_filter_self (e u : String) (s : FunctionUsageStats) :
    (trackFunctionUsageEvents e u s).filter (fun ev => !isFunctionCallEvent ev) =
      trackFunctionUsageEvents e u s := by
  rw [List.filter_eq_self]
  intro ev hev
  simp [tfue_no_functionCall e u s ev hev]

theorem tryFromProto_ok_of_wf {p : FunctionUsageStatsProto} (h : protoWellFormed p) :
    ∃ v, tryFromProto p = Except.ok v := by
  obtain ⟨hsi, hse, hsc, hdi, hde, hvi, hve⟩ := h
  obtain ⟨r1, h1⟩ := from_by_tag_count_isOk hsc
  obtain ⟨si, hsi'⟩ := Option.isSome_iff_exists.mp hsi
  obtain ⟨se, hse'⟩ := Option.isSome_iff_exists.mp hse
  obtain ⟨r2, h2⟩ := from_by_tag_count_isOk hdi
  obtain ⟨r3, h3⟩ := from_by_tag_count_isOk hde
  obtain ⟨r4, h4⟩ := from_by_tag_count_isOk hvi
  obtain ⟨r5, h5⟩ := from_by_tag_count_isOk hve
  exact ⟨⟨collectMap r1, si, se, collectMap r2, collectMap r3, collectMap r4, collectMap r5⟩,
    by simp only [tryFromProto, h1, hsi', hse', h2, h3, h4, h5]⟩

theorem wf_of_tryFromProto_ok {p : FunctionUsageStatsProto} {v : FunctionUsageStats}
    (h : tryFromProto p = Except.ok v) : protoWellFormed p := by
  rcases h1 : from_by_tag_count p.storage_calls with e1 | r1
  · simp [tryFromProto, h1] at h
  rcases hsi : p.storage_ingress_size with _ | si
  · simp [tryFromProto, h1, hsi] at h
  rcases hse : p.storage_egress_size with _ | se
  · simp [tryFromProto, h1, hsi, hse] at h
  rcases h2 : from_by_tag_count p.database_ingress_size with e2 | r2
  · simp [tryFromProto, h1, hsi, hse, h2] at h
  rcases h3 : from_by_tag_count p.database_egress_size with e3 | r3
  · simp [tryFromProto, h1, hsi, hse, h2, h3] at h
  rcases h4 : from_by_tag_count p.vector_ingress_size with e4 | r4
  · simp [tryFromProto, h1, hsi, hse, h2, h3, h4] at h
  rcases h5 : from_by_tag_count p.vector_egress_size with e5 | r5
  · simp [tryFromProto, h1, hsi, hse, h2, h3, h4, h5] at h
  exact ⟨by simp [hsi], by simp [hse], complete_of_from_by_tag_count_ok h1,
    complete_of_from_by_tag_count_ok h2, complete_of_from_by_tag_count_ok h3,
    complete_of_from_by_tag_count_ok h4, complete_of_from_by_tag_count_ok h5⟩

theorem tryFromProto_error_names {p : FunctionUsageStatsProto} {m : String}
    (hm : tryFromProto p = Except.error m) : errorNamesAbsentField p m := by
  have entryCase : ∀ {l : List CounterWithTagProto} {m' : String},
      from_by_tag_count l = Except.error m' →
      (l = p.storage_calls ∨ l = p.database_ingress_size ∨ l = p.database_egress_size ∨
        l = p.vector_ingress_size ∨ l = p.vector_egress_size) →
      errorNamesAbsentField p m' := by
    intro l m' hl hmem
    rcases from_by_tag_count_error hl with ⟨hm1, c, hc, hcn⟩ | ⟨hm1, c, hc, hcc⟩
    · refine Or.inr (Or.inr (Or.inl ⟨hm1, c, ?_, hcn⟩))
      rcases hmem with h' | h' | h' | h' | h' <;> rw [h'] at hc
      · exact Or.inl hc
      · exact Or.inr (Or.inl hc)
      · exact Or.inr (Or.inr (Or.inl hc))
      · exact Or.inr (Or.inr (Or.inr (Or.inl hc)))
      · exact Or.inr (Or.inr (Or.inr (Or.inr hc)))
    · refine Or.inr (Or.inr (Or.inr ⟨hm1, c, ?_, hcc⟩))
      rcases hmem with h' | h' | h' | h' | h' <;> rw [h'] at hc
      · exact Or.inl hc
      · exact Or.inr (Or.inl hc)
      · exact Or.inr (Or.inr (Or.inl hc))
      · exact Or.inr (Or.inr (Or.inr (Or.inl hc)))
      · exact Or.inr (Or.inr (Or.inr (Or.inr hc)))
  rcases h1 : from_by_tag_count p.storage_calls with e1 | r1
  · simp only [tryFromProto, h1] at hm
    have hme : e1 = m := Except.error.inj hm
    exact entryCase (hme ▸ h1) (Or.inl rfl)
  rcases hsi : p.storage_ingress_size with _ | si
  · simp only [tryFromProto, h1, hsi] at hm
    exact Or.inl ⟨(Except.error.inj hm).symm, hsi⟩
  rcases hse : p.storage_egress_size with _ | se
  · simp only [tryFromProto, h1, hsi, hse] at hm
    exact Or.inr (Or.inl ⟨(Except.error.inj hm).symm, hse⟩)
  rcases h2 : from_by_tag_count p.database_ingress_size with e2 | r2
  · simp only [tryFromProto, h1, hsi, hse, h2] at hm
    have hme : e2 = m := Except.error.inj hm
    exact entryCase (hme ▸ h2) (Or.inr (Or.inl rfl))
  rcases h3 : from_by_tag_count p.database_egress_size with e3 | r3
  · simp only [tryFromProto, h1, hsi, hse, h2, h3] at hm
    have hme : e3 = m := Except.error.inj hm
    exact entryCase (hme ▸ h3) (Or.inr (Or.inr (Or.inl rfl)))
  rcases h4 : from_by_tag_count p.vector_ingress_size with e4 | r4
  · simp only [tryFromProto, h1, hsi, hse, h2, h3, h4] at hm
    have hme : e4 = m := Except.error.inj hm
    exact entryCase (hme ▸ h4) (Or.inr (Or.inr (Or.inr (Or.inl rfl))))
  rcases h5 : from_by_tag_count p.vector_egress_size with e5 | r5
  · simp only [tryFromProto, h1, hsi, hse, h2, h3, h4, h5] at hm
    have hme : e5 = m := Except.error.inj hm
    exact entryCase (hme ▸ h5) (Or.inr (Or.inr (Or.inr (Or.inr rfl))))
  · simp only [tryFromProto, h1, hsi, hse, h2, h3, h4, h5] at hm
    exact absurd hm (by simp)

/-! ## Claim theorems -/

/-- Claim C3: for every UsageStats value (with the `BTreeMap` invariant on
its map fields), decoding the wire message produced by encoding it succeeds
and returns a value equal to the original. -/
theorem proto_roundtrip (s : FunctionUsageStats) (h : StatsWF s) :
    tryFromProto (toProto s) = Except.ok s := by
  obtain ⟨h1, h2, h3, h4, h5⟩ := h
  cases s with
  | mk sc si se di de vi ve =>
    simp only [StatsWF] at *
    simp [tryFromProto, toProto, from_to_by_tag_count,
      collectMap_eq_self h1, collectMap_eq_self h2, collectMap_eq_self h3,
      collectMap_eq_self h4, collectMap_eq_self h5]

/-- Witness for C3 at a concrete stats value. -/
theorem proto_roundtrip_witness :
    tryFromProto (toProto ⟨[("getUrl", 2)], 10, 20, [("users", 50)], [("docs", 30)],
        [("vecs", 7)], [("docs", 30)]⟩) =
      Except.ok ⟨[("getUrl", 2)], 10, 20, [("users", 50)], [("docs", 30)],
        [("vecs", 7)], [("docs", 30)]⟩ :=
  proto_roundtrip _ (by simp [StatsWF, SortedKeys])

/-- Claim C5: merge sums the scalars and the per-key map entries (absent key
≡ zero), and is commutative and associative on well-formed UsageStats with
the default value as right identity. -/
theorem merge_comm_assoc_identity (A B C : FunctionUsageStats)
    (hA : StatsWF A) (hB : StatsWF B) (hC : StatsWF C) :
    A.merge B = B.merge A ∧
    (A.merge B).merge C = A.merge (B.merge C) ∧
    A.merge FunctionUsageStats.default = A ∧
    (A.merge B).storage_ingress_size = A.storage_ingress_size + B.storage_ingress_size ∧
    (A.merge B).storage_egress_size = A.storage_egress_size + B.storage_egress_size ∧
    (∀ k, lookupOpt (A.merge B).storage_calls k =
      cmb (lookupOpt A.storage_calls k) (lookupOpt B.storage_calls k)) ∧
    (∀ k, lookupOpt (A.merge B).database_ingress_size k =
      cmb (lookupOpt A.database_ingress_size k) (lookupOpt B.database_ingress_size k)) ∧
    (∀ k, lookupOpt (A.merge B).database_egress_size k =
      cmb (lookupOpt A.database_egress_size k) (lookupOpt B.database_egress_size k)) ∧
    (∀ k, lookupOpt (A.merge B).vector_ingress_size k =
      cmb (lookupOpt A.vector_ingress_size k) (lookupOpt B.vector_ingress_size k)) ∧
    (∀ k, lookupOpt (A.merge B).vector_egress_size k =
      cmb (lookupOpt A.vector_egress_size k) (lookupOpt B.vector_egress_size k)) := by
  obtain ⟨hA1, hA2, hA3, hA4, hA5⟩ := hA
  obtain ⟨hB1, hB2, hB3, hB4, hB5⟩ := hB
  obtain ⟨hC1, hC2, hC3, hC4, hC5⟩ := hC
  refine ⟨?_, ?_, ?_, rfl, rfl, ?_, ?_, ?_, ?_, ?_⟩
  · simp only [FunctionUsageStats.merge]
    congr 1
    · exact mergeMaps_comm hA1 hB1
    · exact Nat.add_comm _ _
    · exact Nat.add_comm _ _
    · exact mergeMaps_comm hA2 hB2
    · exact mergeMaps_comm hA3 hB3
    · exact mergeMaps_comm hA4 hB4
    · exact mergeMaps_comm hA5 hB5
  · simp only [FunctionUsageStats.merge]
    congr 1
    · exact mergeMaps_assoc hA1 hB1 hC1
    · exact Nat.add_assoc _ _ _
    · exact Nat.add_assoc _ _ _
    · exact mergeMaps_assoc hA2 hB2 hC2
    · exact mergeMaps_assoc hA3 hB3 hC3
    · exact mergeMaps_assoc hA4 hB4 hC4
    · exact mergeMaps_assoc hA5 hB5 hC5
  · cases A with
    | mk sc si se di de vi ve =>
      simp [FunctionUsageStats.merge, FunctionUsageStats.default, mergeMaps_nil]
  · exact fun k => lookupOpt_mergeMaps k _ hB1 _ hA1
  · exact fun k => lookupOpt_mergeMaps k _ hB2 _ hA2
  · exact fun k => lookupOpt_mergeMaps k _ hB3 _ hA3
  · exact fun k => lookupOpt_mergeMaps k _ hB4 _ hA4
  · exact fun k => lookupOpt_mergeMaps k _ hB5 _ hA5

/-- Witness for C5 at concrete stats values. -/
theorem merge_comm_assoc_identity_witness :
    (⟨[("a", 1)], 1, 2, [("t", 3)], [], [("t", 9)], []⟩ : FunctionUsageStats).merge
        ⟨[("b", 4)], 5, 6, [("u", 7)], [("t", 8)], [], []⟩ =
      (⟨[("b", 4)], 5, 6, [("u", 7)], [("t", 8)], [], []⟩ : FunctionUsageStats).merge
        ⟨[("a", 1)], 1, 2, [("t", 3)], [], [("t", 9)], []⟩ :=
  (merge_comm_assoc_identity _ _ ⟨[], 0, 0, [], [], [], []⟩
    (by simp [StatsWF, SortedKeys]) (by simp [StatsWF, SortedKeys])
    (by simp [StatsWF, SortedKeys])).1

/-- Claim C6: with skip unset, track_vector_ingress adds the byte count to
both the table's database-ingress counter and its vector-ingress counter
(leaving the other maps untouched), track_vector_egress does the symmetric
thing, and on a fresh tracker `track_vector_ingress("t", 100, false)` yields
`database_ingress_size["t"] == 100` and `vector_ingress_size["t"] == 100`. -/
theorem track_vector_updates_both (s : FunctionUsageStats) (t : String) (n : Nat)
    (h : StatsWF s) :
    lookupOpt (track_vector_ingress_size s t n false).database_ingress_size t =
      some ((lookupOpt s.database_ingress_size t).getD 0 + n) ∧
    lookupOpt (track_vector_ingress_size s t n false).vector_ingress_size t =
      some ((lookupOpt s.vector_ingress_size t).getD 0 + n) ∧
    (track_vector_ingress_size s t n false).storage_calls = s.storage_calls ∧
    (track_vector_ingress_size s t n false).database_egress_size = s.database_egress_size ∧
    (track_vector_ingress_size s t n false).vector_egress_size = s.vector_egress_size ∧
    lookupOpt (track_vector_egress_size s t n false).database_egress_size t =
      some ((lookupOpt s.database_egress_size t).getD 0 + n) ∧
    lookupOpt (track_vector_egress_size s t n false).vector_egress_size t =
      some ((lookupOpt s.vector_egress_size t).getD 0 + n) ∧
    (track_vector_ingress_size FunctionUsageStats.default "t" 100 false).database_ingress_size
      = [("t", 100)] ∧
    (track_vector_ingress_size FunctionUsageStats.default "t" 100 false).vector_ingress_size
      = [("t", 100)] := by
  obtain ⟨h1, h2, h3, h4, h5⟩ := h
  refine ⟨?_, ?_, rfl, rfl, rfl, ?_, ?_, rfl, rfl⟩
  · simp [track_vector_ingress_size, lookupOpt_insertAdd h2]
  · simp [track_vector_ingress_size, lookupOpt_insertAdd h4]
  · simp [track_vector_egress_size, lookupOpt_insertAdd h3]
  · simp [track_vector_egress_size, lookupOpt_insertAdd h5]

/-- Witness for C6 at a concrete stats value. -/
theorem track_vector_updates_both_witness :
    lookupOpt (track_vector_ingress_size
        ⟨[("a", 1)], 0, 0, [("t", 2)], [("t", 3)], [("t", 4)], [("u", 5)]⟩
        "t" 7 false).database_ingress_size "t" =
      some ((lookupOpt [("t", 2)] "t").getD 0 + 7) :=
  (track_vector_updates_both ⟨[("a", 1)], 0, 0, [("t", 2)], [("t", 3)], [("t", 4)], [("u", 5)]⟩
    "t" 7 (by simp [StatsWF, SortedKeys])).1

/-- Claim C7: calling any skip-taking track_* method with skip=true leaves
the tracker's UsageStats unchanged. -/
theorem skip_logging_noop (s : FunctionUsageStats) (t : String) (n : Nat) :
    track_database_ingress_size s t n true = s ∧
    track_database_egress_size s t n true = s ∧
    track_vector_ingress_size s t n true = s ∧
    track_vector_egress_size s t n true = s :=
  ⟨rfl, rfl, rfl, rfl⟩

/-- Claim C9: decoding a message whose repeated named-counter field holds
duplicate names succeeds and binds each name to the count of its last entry
(earlier duplicates are discarded, not summed). -/
theorem decode_duplicate_name_last_wins (l : List (String × Nat)) (k : String) :
    tryFromProto ⟨to_by_tag_count l, some 0, some 0, [], [], [], []⟩ =
      Except.ok ⟨collectMap l, 0, 0, [], [], [], []⟩ ∧
    lookupOpt (collectMap l) k = lastVal l k := by
  refine ⟨?_, lookupOpt_collectMap l k⟩
  simp [tryFromProto, from_to_by_tag_count l, from_by_tag_count, collectMap]

/-- Claim C10: extracting the final stats returns a copy of the buffered
UsageStats and leaves the shared buffered state unchanged, so remaining
clones of the tracker keep accumulating into the same state. -/
theorem gather_user_stats_frame (s : FunctionUsageStats) (t : String) (n : Nat) :
    (gather_user_stats s).1 = s ∧ (gather_user_stats s).2 = s ∧
    track_database_ingress_size (gather_user_stats s).2 t n false =
      track_database_ingress_size s t n false := by
  refine ⟨?_, rfl, rfl⟩
  cases s
  rfl

/-- Claim C4: decoding succeeds exactly when both required scalars are
present and every named-counter entry has its name and count sub-fields; any
failure carries a missing-field error that names a field actually absent
from the message. -/
theorem decode_missing_fields (p : FunctionUsageStatsProto) :
    ((∃ v, tryFromProto p = Except.ok v) ↔ protoWellFormed p) ∧
    (∀ m, tryFromProto p = Except.error m → errorNamesAbsentField p m) :=
  ⟨⟨fun hv => wf_of_tryFromProto_ok hv.choose_spec, fun h => tryFromProto_ok_of_wf h⟩,
    fun _ hm => tryFromProto_error_names hm⟩

/-- Witness for C4: a message whose storage-ingress scalar is absent decodes
to an error naming that field. -/
theorem decode_missing_fields_witness :
    errorNamesAbsentField ⟨[], none, some 0, [], [], [], []⟩
      "Missing `storage_ingress_size` field" :=
  (decode_missing_fields ⟨[], none, some 0, [], [], [], []⟩).2 _ rfl

/-- Claim C1 counterexample: a table with nonzero ingress and nonzero egress
yields two database-bandwidth events, not one; and a zero-valued ingress
entry still yields an event. -/
theorem bandwidth_event_expansion_cex :
    (trackFunctionUsageEvents "e" "u" ⟨[], 0, 0, [("t", 1)], [("t", 1)], [], []⟩).countP
        (isDatabaseBandwidthFor "t") = 2 ∧
    (trackFunctionUsageEvents "e" "u" ⟨[], 0, 0, [("t", 0)], [], [], []⟩).countP
        (isDatabaseBandwidthFor "t") = 1 := by
  constructor <;> rfl

/-- Claim C1 (amended): the expansion emits exactly one storage-bandwidth
event (even when both scalars are zero), one storage-call-count event per
entry of the storage_calls map, and one database-bandwidth event per entry
of the database-ingress map plus one per entry of the database-egress map —
regardless of the entry's value, so a table present in both maps yields two
events and a table absent from both maps yields none; likewise for vector
bandwidth. -/
theorem bandwidth_event_expansion (e u t : String) (s : FunctionUsageStats) :
    (trackFunctionUsageEvents e u s).countP isStorageBandwidthEvent = 1 ∧
    (trackFunctionUsageEvents e u s).countP isStorageCallsEvent =
      s.storage_calls.length ∧
    (trackFunctionUsageEvents e u s).countP (isDatabaseBandwidthFor t) =
      s.database_ingress_size.countP (fun p => p.1 == t) +
        s.database_egress_size.countP (fun p => p.1 == t) ∧
    (trackFunctionUsageEvents e u s).countP (isVectorBandwidthFor t) =
      s.vector_ingress_size.countP (fun p => p.1 == t) +
        s.vector_egress_size.countP (fun p => p.1 == t) := by
  refine ⟨?_, ?_, ?_, ?_⟩ <;>
    simp [trackFunctionUsageEvents, List.countP_append, List.countP_map,
      isStorageBandwidthEvent, isStorageCallsEvent, isDatabaseBandwidthFor,
      isVectorBandwidthFor, Function.comp_def, List.countP_true, List.countP_false]

/-- Claim C2 counterexample: a CLI-identified call is emitted with
is_tracked = false although it is not a system-originated
function-identified call. -/
theorem track_call_cli_cex :
    track_call (UdfIdentifier.cli "c") "e" CallType.mutation FunctionUsageStats.default =
      some [UsageEvent.functionCall "e" "c" "cli" "mutation" 0 0 "isolate" false,
        UsageEvent.functionStorageBandwidth "e" "c" 0 0] ∧
    isSystemFunctionId (UdfIdentifier.cli "c") = false :=
  ⟨rfl, rfl⟩

/-- Claim C2 (amended): track_call emits exactly one function-call summary
event; its is_tracked flag is false exactly when the call is a
system-originated function-identified call or a CLI-identified call; the
bandwidth events that follow are the full stats expansion, independent of
that flag. -/
theorem track_call_summary (udf : UdfIdentifier) (e : String) (ct : CallType)
    (s : FunctionUsageStats) (evs : List UsageEvent)
    (h : track_call udf e ct s = some evs) :
    evs.countP isFunctionCallEvent = 1 ∧
    (shouldTrackCalls udf = false ↔
      (isSystemFunctionId udf = true ∨ isCliId udf = true)) ∧
    evs.filter (fun ev => !isFunctionCallEvent ev) =
      trackFunctionUsageEvents e udf.toStr s := by
  rcases hd : ct.durationMillis with _ | d
  · simp [track_call, hd] at h
  · simp only [track_call, hd] at h
    have hevs : evs = UsageEvent.functionCall e udf.toStr (udfIdType udf) ct.tag
        ct.memoryMegabytes d ct.environment (shouldTrackCalls udf)
        :: trackFunctionUsageEvents e udf.toStr s := (Option.some.inj h).symm
    subst hevs
    refine ⟨?_, ?_, ?_⟩
    · simp [List.countP_cons, isFunctionCallEvent, tfue_countP_functionCall]
    · cases udf with
      | function p isSys =>
        cases isSys <;> simp [shouldTrackCalls, isSystemFunctionId, isCliId]
      | http p => simp [shouldTrackCalls, isSystemFunctionId, isCliId]
      | cli p => simp [shouldTrackCalls, isSystemFunctionId, isCliId]
    · simp [List.filter_cons, isFunctionCallEvent, List.filter_eq_self]
      exact fun a ha => tfue_no_functionCall e udf.toStr s a ha

/-- Witness for C2 at a concrete non-system function call. -/
theorem track_call_summary_witness :
    [UsageEvent.functionCall "e" "f" "function" "cached_query" 0 0 "isolate" true,
      UsageEvent.functionStorageBandwidth "e" "f" 0 0].countP isFunctionCallEvent = 1 :=
  (track_call_summary (UdfIdentifier.function "f" false) "e" CallType.cachedQuery
    FunctionUsageStats.default _ rfl).1

/-- Claim C8 counterexample: an HttpAction running for u64::MAX seconds has
a millisecond count exceeding u64::MAX, so the millisecond conversion panics
(modelled as `none`) and track_call aborts — it is not total over all
CallType values. -/
theorem track_call_duration_overflow_cex :
    track_call (UdfIdentifier.http "h") "e"
      (CallType.httpAction ⟨2 ^ 64 - 1, 0⟩ 0) FunctionUsageStats.default = none := by
  decide

/-- Claim C8 (amended): merge and the track_* accumulators are total;
track_call succeeds exactly when the call kind's millisecond conversion
does, and for Action/HttpAction the conversion succeeds exactly when the
duration's millisecond count fits in a u64 (all other kinds always
succeed). -/
theorem track_call_totality (udf : UdfIdentifier) (e : String) (ct : CallType)
    (s : FunctionUsageStats) :
    ((track_call udf e ct s).isSome = true ↔ ct.durationMillis.isSome = true) ∧
    (∀ env d m, (CallType.action env d m).durationMillis.isSome = true ↔
      d.asMillis ≤ u64Max) ∧
    (∀ d m, (CallType.httpAction d m).durationMillis.isSome = true ↔
      d.asMillis ≤ u64Max) := by
  refine ⟨?_, ?_, ?_⟩
  · rcases hd : ct.durationMillis with _ | d <;> simp [track_call, hd]
  · intro env d m
    by_cases hle : d.asMillis ≤ u64Max <;> simp [CallType.durationMillis, hle]
  · intro d m
    by_cases hle : d.asMillis ≤ u64Max <;> simp [CallType.durationMillis, hle]

end UsageTracking
